import Mathlib

/-!
Verification of the gradient-builder base layer of
orttraining/orttraining/core/graph/gradient_builder_base.h.

The C++ header is shallowly embedded below: graph elements become plain
structures, the shared stashed-tensor set becomes explicit state passed in
and out of the accessors, and fatal `ORT_ENFORCE` failures become `none`.
-/

namespace OnnxGradBuilder

/-! ### Decimal rendering of naturals, modelling C++ `std::to_string` -/

def digitChar (d : Nat) : Char := Char.ofNat (48 + d)

def toDecimalAux (n : Nat) (acc : List Char) : List Char :=
  if n < 10 then digitChar n :: acc
  else toDecimalAux (n / 10) (digitChar (n % 10) :: acc)
termination_by n
decreasing_by
  exact Nat.div_lt_self (by omega) (by omega)

def natToString (n : Nat) : String := ⟨toDecimalAux n []⟩

/-- Decimal rendering of a C++ `int`, modelling `std::to_string(int)`. -/
def intToString (i : Int) : String :=
  if i < 0 then "-" ++ natToString (-i).toNat else natToString i.toNat

theorem digitChar_toNat (d : Nat) (h : d < 10) : (digitChar d).toNat = 48 + d := by
  interval_cases d <;> decide

theorem toDecimalAux_eq (n : Nat) (acc : List Char) :
    toDecimalAux n acc =
      if n < 10 then digitChar n :: acc
      else toDecimalAux (n / 10) (digitChar (n % 10) :: acc) := by
  rw [toDecimalAux]

theorem toDecimalAux_append (n : Nat) :
    ∀ acc : List Char, toDecimalAux n acc = toDecimalAux n [] ++ acc := by
  induction n using Nat.strong_induction_on with
  | _ n ih =>
    intro acc
    by_cases h : n < 10
    · rw [toDecimalAux_eq n acc, toDecimalAux_eq n [], if_pos h, if_pos h]
      simp
    · rw [toDecimalAux_eq n acc, toDecimalAux_eq n [], if_neg h, if_neg h]
      rw [ih (n / 10) (Nat.div_lt_self (by omega) (by omega)),
        ih (n / 10) (Nat.div_lt_self (by omega) (by omega)) [digitChar (n % 10)],
        List.append_assoc]
      simp

theorem toDecimalAux_digits (n : Nat) :
    ∀ c ∈ toDecimalAux n [], 48 ≤ c.toNat ∧ c.toNat ≤ 57 := by
  induction n using Nat.strong_induction_on with
  | _ n ih =>
    intro c hc
    by_cases h : n < 10
    · rw [toDecimalAux_eq, if_pos h] at hc
      rcases List.mem_singleton.mp hc with rfl
      rw [digitChar_toNat n h]
      omega
    · rw [toDecimalAux_eq, if_neg h,
        toDecimalAux_append (n / 10) [digitChar (n % 10)]] at hc
      rcases List.mem_append.mp hc with h1 | h1
      · exact ih (n / 10) (Nat.div_lt_self (by omega) (by omega)) c h1
      · rcases List.mem_singleton.mp h1 with rfl
        rw [digitChar_toNat (n % 10) (Nat.mod_lt n (by omega))]
        omega

theorem toDecimalAux_ne_nil (n : Nat) : toDecimalAux n [] ≠ [] := by
  by_cases h : n < 10
  · rw [toDecimalAux_eq, if_pos h]; simp
  · rw [toDecimalAux_eq, if_neg h, toDecimalAux_append]; simp

def fromDigits (l : List Char) : Nat :=
  l.foldl (fun a c => 10 * a + (c.toNat - 48)) 0

theorem fromDigits_toDecimalAux (n : Nat) : fromDigits (toDecimalAux n []) = n := by
  induction n using Nat.strong_induction_on with
  | _ n ih =>
    by_cases h : n < 10
    · rw [toDecimalAux_eq, if_pos h]
      simp only [fromDigits, List.foldl_cons, List.foldl_nil]
      rw [digitChar_toNat n h]
      omega
    · rw [toDecimalAux_eq, if_neg h, toDecimalAux_append (n / 10) [digitChar (n % 10)]]
      simp only [fromDigits, List.foldl_append, List.foldl_cons, List.foldl_nil]
      have hrec := ih (n / 10) (Nat.div_lt_self (by omega) (by omega))
      simp only [fromDigits] at hrec
      rw [hrec, digitChar_toNat (n % 10) (Nat.mod_lt n (by omega))]
      omega

theorem toDecimalAux_inj {a b : Nat} (h : toDecimalAux a [] = toDecimalAux b []) :
    a = b := by
  have := congrArg fromDigits h
  rwa [fromDigits_toDecimalAux, fromDigits_toDecimalAux] at this

theorem natToString_inj {a b : Nat} (h : natToString a = natToString b) : a = b := by
  have hd : toDecimalAux a [] = toDecimalAux b [] := congrArg String.data h
  exact toDecimalAux_inj hd

theorem toDecimalAux_no_underscore (n : Nat) :
    ∀ c ∈ toDecimalAux n [], c ≠ '_' := by
  intro c hc hcontra
  have := toDecimalAux_digits n c hc
  rw [hcontra] at this
  simp at this

theorem toDecimalAux_no_minus (n : Nat) :
    ∀ c ∈ toDecimalAux n [], c ≠ '-' := by
  intro c hc hcontra
  have := toDecimalAux_digits n c hc
  rw [hcontra] at this
  simp at this

/-- In a list of the shape `a ++ '_' :: r` where `r` contains no underscore,
the part after the last underscore is uniquely determined. -/
theorem append_underscore_inj :
    ∀ (a b r s : List Char), (∀ c ∈ r, c ≠ '_') → (∀ c ∈ s, c ≠ '_') →
      a ++ '_' :: r = b ++ '_' :: s → r = s := by
  intro a
  induction a with
  | nil =>
    intro b r s hr hs h
    cases b with
    | nil => simpa using h
    | cons x xs =>
      simp only [List.nil_append, List.cons_append, List.cons.injEq] at h
      exfalso
      exact hr '_' (h.2 ▸ List.mem_append_right xs (List.mem_cons_self _ _)) rfl
  | cons x xs ih =>
    intro b r s hr hs h
    cases b with
    | nil =>
      simp only [List.nil_append, List.cons_append, List.cons.injEq] at h
      exfalso
      exact hs '_' (h.2 ▸ List.mem_append_right xs (List.mem_cons_self _ _)) rfl
    | cons y ys =>
      simp only [List.cons_append, List.cons.injEq] at h
      exact ih ys r s hr hs h.2

theorem intToString_inj {a b : Int} (h : intToString a = intToString b) : a = b := by
  unfold intToString at h
  by_cases ha : a < 0 <;> by_cases hb : b < 0
  · rw [if_pos ha, if_pos hb] at h
    have hd := congrArg String.data h
    simp only [String.data_append] at hd
    have hd2 : (natToString (-a).toNat).data = (natToString (-b).toNat).data :=
      List.append_cancel_left hd
    have := natToString_inj (String.ext hd2)
    omega
  · rw [if_pos ha, if_neg hb] at h
    exfalso
    have hd := congrArg String.data h
    simp only [String.data_append] at hd
    have hmem : '-' ∈ (natToString b.toNat).data := by
      rw [← hd]
      exact List.mem_append_left _ (by decide)
    exact toDecimalAux_no_minus b.toNat '-' hmem rfl
  · rw [if_neg ha, if_pos hb] at h
    exfalso
    have hd := congrArg String.data h
    simp only [String.data_append] at hd
    have hmem : '-' ∈ (natToString a.toNat).data := by
      rw [hd]
      exact List.mem_append_left _ (by decide)
    exact toDecimalAux_no_minus a.toNat '-' hmem rfl
  · rw [if_neg ha, if_neg hb] at h
    have := natToString_inj h
    omega

/-! ### Graph-element data model

`NodeArg`, `ArgDef`, `NodeDef`, `Node` and `Graph` embed the graph-element
model consumed by the header.  A `TypeAsProto` pointer (possibly null)
becomes `Option String`, keeping the type payload abstract. -/

structure NodeArg where
  name : String
  type : Option String
deriving DecidableEq

structure ArgDef where
  name : String
  type : Option String
deriving DecidableEq

/-- One constructor per numeric encoding reachable from
`ConstantScalarNode(float, ..., int)`.  The conversions `MLFloat16(v)`,
`BFloat16(v)`, `Float8E4M3FN(v, true)`, ... live outside this header
(core/framework float headers); the embedding records which conversion was
applied to the 32-bit value, which is all the claims observe. -/
inductive EncodedScalar where
  | f32 (v : Rat)
  | f16 (v : Rat)
  | bf16 (v : Rat)
  | f8e4m3fn (v : Rat)
  | f8e4m3fnuz (v : Rat)
  | f8e5m2 (v : Rat)
  | f8e5m2fnuz (v : Rat)
deriving DecidableEq

/-- The 32-bit value an `EncodedScalar` was built from. -/
def rawValue : EncodedScalar → Rat
  | .f32 v => v
  | .f16 v => v
  | .bf16 v => v
  | .f8e4m3fn v => v
  | .f8e4m3fnuz v => v
  | .f8e5m2 v => v
  | .f8e5m2fnuz v => v

/-- A scalar tensor proto: the encoded payload plus the dims added by
`add_dims`. -/
structure TensorProto where
  scalar : EncodedScalar
  dims : List Int
deriving DecidableEq

structure NodeDef where
  op_type : String
  name : String
  inputs : List ArgDef
  outputs : List ArgDef
  attributes : List (String × TensorProto)
deriving DecidableEq

structure Node where
  name : String
  op_type : String
  input_defs : List NodeArg
  output_defs : List NodeArg

/-- The slice of the external `Graph` interface the header consumes:
argument lookup by name, the domain→opset-version table, and node-name
generation for anonymous forward nodes. -/
structure Graph where
  getNodeArg : String → Option NodeArg
  domainToVersionMap : String → Option Int
  generateNodeName : String → String

/-- Modelled from the spec: the ONNX-domain key of the graph's
domain-to-version table (`kOnnxDomain`, core/graph/constants.h, not under
src/).  The claims depend only on it being a fixed key. -/
def kOnnxDomain : String := ""

/-- Modelled from the spec: the recomputed-alias naming convention
(`graph_utils::RecomputeName`, recompute_graph_utils.h, not under src/) —
a substitute tensor name derived from the original forward tensor name.
The claims depend only on `Graph.getNodeArg (RecomputeName name)` deciding
whether a recomputed alias of `name` exists. -/
def RecomputeName (name : String) : String := name ++ "_recompute"

/-! ### ONNX element-type tags

Values of the `onnx::TensorProto_DataType` enum (external to src/); the
claims depend only on these seven tags being pairwise distinct. -/

def TensorProto_DataType_FLOAT : Int := 1
def TensorProto_DataType_FLOAT16 : Int := 10
def TensorProto_DataType_BFLOAT16 : Int := 16
def TensorProto_DataType_FLOAT8E4M3FN : Int := 17
def TensorProto_DataType_FLOAT8E4M3FNUZ : Int := 18
def TensorProto_DataType_FLOAT8E5M2 : Int := 19
def TensorProto_DataType_FLOAT8E5M2FNUZ : Int := 20

/-! ### GradientBuilderBase

The shared `std::unordered_set<std::string>& stashed_tensors_` becomes
explicit state (`List String` observed through membership) passed into and
out of each stateful operation.  The virtual `GetGradientDefsImpl` becomes
a function field; a concrete builder subclass is a `GradientBuilder` value
with that field filled in. -/

structure GradientBuilder where
  graph : Option Graph
  node : Node
  gradient_inputs : List String
  gradient_outputs : List String
  unique_node_pfx : String
  getGradientDefsImpl : List String → Option (List NodeDef × List String)

/-- Insertion into `stashed_tensors_` (set semantics). -/
def RecordStashedTensor (st : List String) (name : String) : List String :=
  if name ∈ st then st else name :: st

def IsTensorStashed (st : List String) (name : String) : Bool :=
  name ∈ st

/-- The `_Grad/` unique-prefix scheme of the constructor helper
(CreateUniqueNodePrefix in the source); dereferences the graph only when
the forward node is anonymous. -/
def CreateUniqueNodePfx (graph : Option Graph) (node : Node) : Option String :=
  if node.name ≠ "" then some (node.name ++ "_Grad/")
  else (graph.map fun g => g.generateNodeName node.op_type ++ "_Grad/")

/-- Namespacing under the builder's unique prefix (`Name` in the source). -/
def Name (b : GradientBuilder) (name : String) : String :=
  b.unique_node_pfx ++ name

/-- The shared body of `GradientBuilderBase::I` and `GradientBuilderBase::O`
(identical in the source up to reading `InputDefs()` vs `OutputDefs()`):
enforce the index, look the recomputed alias up in the graph, otherwise
stash the original name (when requested) and return it.  `none` models the
fatal `ORT_ENFORCE` (or a null-graph dereference). -/
def accessorAux (defs : List NodeArg) (graph : Option Graph)
    (st : List String) (i : Nat) (record_stashing : Bool) :
    Option (ArgDef × List String) :=
  match defs[i]? with
  | none => none
  | some arg =>
    match graph with
    | none => none
    | some g =>
      match g.getNodeArg (RecomputeName arg.name) with
      | some recomputed_nodearg =>
        some (⟨recomputed_nodearg.name, recomputed_nodearg.type⟩, st)
      | none =>
        if record_stashing then
          some (⟨arg.name, arg.type⟩, RecordStashedTensor st arg.name)
        else
          some (⟨arg.name, arg.type⟩, st)

/-- Accessor `I`: i-th input of the forward op. -/
def I (b : GradientBuilder) (st : List String) (i : Nat)
    (record_stashing : Bool := true) : Option (ArgDef × List String) :=
  accessorAux b.node.input_defs b.graph st i record_stashing

/-- Accessor `O`: i-th output of the forward op. -/
def O (b : GradientBuilder) (st : List String) (i : Nat)
    (record_stashing : Bool := true) : Option (ArgDef × List String) :=
  accessorAux b.node.output_defs b.graph st i record_stashing

/-- The name-finalization loop of `GetGradientDefs`: node `i` with an empty
name receives `Name(op_type + "_" + std::to_string(i))`. -/
def finalizeNames (pfx : String) : Nat → List NodeDef → List NodeDef
  | _, [] => []
  | i, nd :: rest =>
    (if nd.name = "" then
      { nd with name := pfx ++ (nd.op_type ++ "_" ++ natToString i) }
    else nd) :: finalizeNames pfx (i + 1) rest

/-- Entry point `GetGradientDefs`: delegate to the concrete
builder's `GetGradientDefsImpl`, then finalize empty node names. -/
def GetGradientDefs (b : GradientBuilder) (st : List String) :
    Option (List NodeDef × List String) :=
  (b.getGradientDefsImpl st).map fun p => (finalizeNames b.unique_node_pfx 0 p.1, p.2)

/-- Membership test `IsGradientRequiredForSrcNodeInput`. -/
def IsGradientRequiredForSrcNodeInput (b : GradientBuilder) (i : Nat) : Bool :=
  match b.node.input_defs[i]? with
  | some arg => arg.name ∈ b.gradient_outputs
  | none => false

/-- Membership test `IsGradientAvailableForSrcNodeOutput`. -/
def IsGradientAvailableForSrcNodeOutput (b : GradientBuilder) (i : Nat) : Bool :=
  match b.node.output_defs[i]? with
  | some arg => arg.name ∈ b.gradient_inputs
  | none => false

/-- Opset lookup `OnnxOpSetVersion`. -/
def OnnxOpSetVersion (b : GradientBuilder) : Int :=
  match b.graph with
  | some g =>
    match g.domainToVersionMap kOnnxDomain with
    | some v => v
    | none => -1
  | none => -1

/-! ### Constant-node synthesis -/

/-- Scalar tensor construction: `ORT_ENFORCE(shape.size() == 0
|| (shape.size() == 1 && shape[0] == 1))`, then `ToTensor` plus `add_dims`. -/
def ScalarTensorProto (value : EncodedScalar) (shape : List Int) :
    Option TensorProto :=
  if shape.length = 0 ∨ (shape.length = 1 ∧ shape.headD 0 = 1) then
    some ⟨value, shape⟩
  else none

/-- The `NodeDef("Constant", {}, {ArgDef(arg_name, nullptr)},
{MakeAttribute("value", t_proto)})` construction. -/
def mkConstantNodeDef (arg_name : String) (t : TensorProto) : NodeDef :=
  { op_type := "Constant", name := "", inputs := [],
    outputs := [⟨arg_name, none⟩], attributes := [("value", t)] }

/-- The templated `ConstantScalarNode(T value, shape, arg_name)` overload. -/
def ConstantScalarNodeT (value : EncodedScalar) (shape : List Int)
    (arg_name : String) : Option NodeDef :=
  (ScalarTensorProto value shape).map (mkConstantNodeDef arg_name)

/-- The element-type-dispatching `ConstantScalarNode(float value, arg_name,
elem_type)` overload, in the build with 8-bit float support enabled
(`DISABLE_FLOAT8_TYPES` not defined). -/
def ConstantScalarNode (value : Rat) (arg_name : String) (elem_type : Int) :
    Option NodeDef :=
  if elem_type = TensorProto_DataType_FLOAT16 then
    ConstantScalarNodeT (.f16 value) [1] arg_name
  else if elem_type = TensorProto_DataType_BFLOAT16 then
    ConstantScalarNodeT (.bf16 value) [1] arg_name
  else if elem_type = TensorProto_DataType_FLOAT8E4M3FN then
    ConstantScalarNodeT (.f8e4m3fn value) [1] arg_name
  else if elem_type = TensorProto_DataType_FLOAT8E4M3FNUZ then
    ConstantScalarNodeT (.f8e4m3fnuz value) [1] arg_name
  else if elem_type = TensorProto_DataType_FLOAT8E5M2 then
    ConstantScalarNodeT (.f8e5m2 value) [1] arg_name
  else if elem_type = TensorProto_DataType_FLOAT8E5M2FNUZ then
    ConstantScalarNodeT (.f8e5m2fnuz value) [1] arg_name
  else
    ConstantScalarNodeT (.f32 value) [1] arg_name

def ZeroConstantNode (elem_type : Int) : Option NodeDef :=
  ConstantScalarNode 0 ("ZeroConstant_Type" ++ intToString elem_type) elem_type

def HalfConstantNode (elem_type : Int) : Option NodeDef :=
  ConstantScalarNode (1 / 2) ("HalfConstant_Type" ++ intToString elem_type) elem_type

def OneConstantNode (elem_type : Int) : Option NodeDef :=
  ConstantScalarNode 1 ("OneConstant_Type" ++ intToString elem_type) elem_type

/-- Output-argument names of a possibly-synthesized constant node. -/
def constOutNames (o : Option NodeDef) : Option (List String) :=
  o.map fun nd => nd.outputs.map ArgDef.name

/-! ### The two degenerate builders -/

/-- The no-op builder: its `GetGradientDefsImpl` returns `GradientDef()`. -/
def EmptyGradientBuilder (graph : Option Graph) (node : Node)
    (gradient_inputs gradient_outputs : List String) (pfx : String) :
    GradientBuilder :=
  { graph := graph, node := node, gradient_inputs := gradient_inputs,
    gradient_outputs := gradient_outputs, unique_node_pfx := pfx,
    getGradientDefsImpl := fun st => some ([], st) }

/-- The guard builder: its `GetGradientDefsImpl` is
`ORT_ENFORCE(false, ...)`. -/
def UnSupportedGradientBuilder (graph : Option Graph) (node : Node)
    (gradient_inputs gradient_outputs : List String) (pfx : String) :
    GradientBuilder :=
  { graph := graph, node := node, gradient_inputs := gradient_inputs,
    gradient_outputs := gradient_outputs, unique_node_pfx := pfx,
    getGradientDefsImpl := fun _ => none }

/-! ### Broadcast-backward-axis resolver (spec-modelled)

`ComputeBroadcastBackwardAxes` and `HandleBroadcasting` are only declared in
the header; their implementations live in gradient_builder_base.cc, which is
not under src/, so they are modelled from the spec (§4.3). -/

/-- A `TensorShapeProto_Dimension`: a concrete extent or a symbolic name. -/
inductive Dimension where
  | dimValue (v : Int)
  | dimParam (p : String)
deriving DecidableEq

/-- Right-aligned dimension of operand `L` at broadcast-axis `idx`
(`ndim` = broadcast rank); `none` when the axis has no counterpart on `L`. -/
def dimAt (L : List Dimension) (ndim idx : Nat) : Option Dimension :=
  if idx < ndim - L.length then none else L[idx - (ndim - L.length)]?

/-- Modelled from the spec: per-axis decision of §4.3 — equal dimensions
broadcast nowhere; a concrete 1 against a different dimension is reduced on
the 1's side; an axis missing from the shorter operand is reduced on that
operand; unresolved symbolic ambiguity (distinct params, or param against
value) fails loudly (`none`). Returns (reduce on A?, reduce on B?). -/
def axisDecision : Option Dimension → Option Dimension → Option (Bool × Bool)
  | none, none => some (false, false)
  | none, some _ => some (true, false)
  | some _, none => some (false, true)
  | some (.dimValue va), some (.dimValue vb) =>
    if va = vb then some (false, false)
    else if va = 1 then some (true, false)
    else if vb = 1 then some (false, true)
    else none
  | some (.dimParam pa), some (.dimParam pb) =>
    if pa = pb then some (false, false) else none
  | some _, some _ => none

/-- Walk the broadcast axes in ascending order; `remaining` counts the axes
still to process, so the current axis is `ndim - remaining`. -/
def cbbaGo (A B : List Dimension) (ndim : Nat) :
    Nat → Option (List Int × List Int)
  | 0 => some ([], [])
  | r + 1 =>
    let idx := ndim - (r + 1)
    match axisDecision (dimAt A ndim idx) (dimAt B ndim idx),
        cbbaGo A B ndim r with
    | some (ra, rb), some (as_, bs) =>
      some ((if ra then (idx : Int) :: as_ else as_),
            (if rb then (idx : Int) :: bs else bs))
    | _, _ => none

/-- Modelled from the spec: `ComputeBroadcastBackwardAxes` (§4.3,
implementation in gradient_builder_base.cc, not under src/).  The fatal
diagnostic on unresolvable symbolic ambiguity is `none`; the `node_name`
argument only feeds that diagnostic and is dropped. -/
def ComputeBroadcastBackwardAxes (A_dims B_dims : List Dimension) :
    Option (List Int × List Int) :=
  let ndim := max A_dims.length B_dims.length
  cbbaGo A_dims B_dims ndim ndim

/-- Modelled from the spec: `HandleBroadcasting` (§4.3, implementation in
gradient_builder_base.cc, not under src/).  With no reduce-axes the raw
gradient passes through and no node is appended; otherwise a reduction node
is appended (the spec's rank-dependent trailing reshape is represented by
the single reduction node, as the ranks are not in this signature). -/
def HandleBroadcasting (input_grad target output_grad : ArgDef)
    (reduce_axes : List Int) (output : List NodeDef) : List NodeDef :=
  if reduce_axes = [] then output
  else
    output ++ [{ op_type := "ReduceSum", name := "", inputs := [input_grad],
                 outputs := [output_grad], attributes := [] }]

/-! ### Helper lemmas about the stashed-tensor set -/

theorem mem_RecordStashedTensor_self (st : List String) (n : String) :
    n ∈ RecordStashedTensor st n := by
  unfold RecordStashedTensor
  split <;> simp_all

theorem RecordStashedTensor_of_mem {st : List String} {n : String}
    (h : n ∈ st) : RecordStashedTensor st n = st := if_pos h

theorem mem_RecordStashedTensor_iff (st : List String) (n x : String) :
    x ∈ RecordStashedTensor st n ↔ x = n ∨ x ∈ st := by
  unfold RecordStashedTensor
  split <;> rename_i h
  · constructor
    · exact fun hx => Or.inr hx
    · rintro (rfl | hx) <;> assumption
  · simp [List.mem_cons]

theorem mem_RecordStashedTensor_of_mem {st : List String} {x : String}
    (n : String) (h : x ∈ st) : x ∈ RecordStashedTensor st n :=
  (mem_RecordStashedTensor_iff st n x).mpr (Or.inr h)

theorem RecordStashedTensor_idem (st : List String) (n : String) :
    RecordStashedTensor (RecordStashedTensor st n) n = RecordStashedTensor st n :=
  RecordStashedTensor_of_mem (mem_RecordStashedTensor_self st n)

/-! ### Sample fixtures used by the witnesses -/

def sampleNode : Node :=
  { name := "fwd", op_type := "Add",
    input_defs := [⟨"x", some "T"⟩, ⟨"y", none⟩],
    output_defs := [⟨"z", some "T"⟩] }

def sampleGraphNoAlias : Graph :=
  { getNodeArg := fun _ => none,
    domainToVersionMap := fun d => if d = kOnnxDomain then some 17 else none,
    generateNodeName := fun s => s }

def sampleGraphAlias : Graph :=
  { getNodeArg := fun s =>
      if s = "x_recompute" then some ⟨"x_recompute", some "T"⟩ else none,
    domainToVersionMap := fun _ => none,
    generateNodeName := fun s => s }

def sampleBuilderNoAlias : GradientBuilder :=
  { graph := some sampleGraphNoAlias, node := sampleNode,
    gradient_inputs := ["z"], gradient_outputs := ["x"],
    unique_node_pfx := "fwd_Grad/",
    getGradientDefsImpl := fun st => some ([], st) }

def sampleBuilderAlias : GradientBuilder :=
  { graph := some sampleGraphAlias, node := sampleNode,
    gradient_inputs := [], gradient_outputs := [],
    unique_node_pfx := "fwd_Grad/",
    getGradientDefsImpl := fun st => some ([], st) }

/-! ### Claims -/

/-- C5: for every constructed builder state, `EmptyGradientBuilder`'s
`GetGradientDefs()` returns an empty GradientDef and leaves the stashed
set unchanged, while `UnSupportedGradientBuilder`'s `GetGradientDefs()`
always fails fatally and never returns a GradientDef. -/
theorem claim_C5_degenerate_builders :
    ∀ (graph : Option Graph) (node : Node)
      (gradient_inputs gradient_outputs : List String) (pfx : String)
      (st : List String),
      GetGradientDefs
        (EmptyGradientBuilder graph node gradient_inputs gradient_outputs pfx)
        st = some ([], st) ∧
      GetGradientDefs
        (UnSupportedGradientBuilder graph node gradient_inputs gradient_outputs pfx)
        st = none := by
  intro graph node gradient_inputs gradient_outputs pfx st
  exact ⟨rfl, rfl⟩

/-- C10: `OnnxOpSetVersion()` never fails: it returns the graph's registered
opset version for the ONNX domain when the graph pointer is non-null and the
domain-to-version map contains the ONNX domain, and returns -1 in every
other case. -/
theorem claim_C10_onnx_opset_version :
    ∀ (b : GradientBuilder),
      (b.graph = none → OnnxOpSetVersion b = -1) ∧
      (∀ g, b.graph = some g →
        (∀ v, g.domainToVersionMap kOnnxDomain = some v → OnnxOpSetVersion b = v) ∧
        (g.domainToVersionMap kOnnxDomain = none → OnnxOpSetVersion b = -1)) := by
  intro b
  refine ⟨fun h => by simp [OnnxOpSetVersion, h], fun g hg => ⟨?_, ?_⟩⟩
  · intro v hv
    simp [OnnxOpSetVersion, hg, hv]
  · intro hn
    simp [OnnxOpSetVersion, hg, hn]

/-- Witness for C10 at a concrete builder whose graph maps the ONNX domain
to opset 17. -/
theorem claim_C10_witness :
    sampleBuilderNoAlias.graph = some sampleGraphNoAlias ∧
    sampleGraphNoAlias.domainToVersionMap kOnnxDomain = some 17 ∧
    OnnxOpSetVersion sampleBuilderNoAlias = 17 :=
  ⟨rfl, rfl,
    ((claim_C10_onnx_opset_version sampleBuilderNoAlias).2 sampleGraphNoAlias
      rfl).1 17 rfl⟩

/-- C7: `IsGradientRequiredForSrcNodeInput(i)` returns false (not fatal)
out of range and otherwise tests membership of the i-th input name in the
required-gradient set; symmetrically for
`IsGradientAvailableForSrcNodeOutput(i)` over the available-gradient set. -/
theorem claim_C7_membership_not_fatal :
    ∀ (b : GradientBuilder) (i : Nat),
      (b.node.input_defs.length ≤ i →
        IsGradientRequiredForSrcNodeInput b i = false) ∧
      (∀ arg, b.node.input_defs[i]? = some arg →
        (IsGradientRequiredForSrcNodeInput b i = true ↔
          arg.name ∈ b.gradient_outputs)) ∧
      (b.node.output_defs.length ≤ i →
        IsGradientAvailableForSrcNodeOutput b i = false) ∧
      (∀ arg, b.node.output_defs[i]? = some arg →
        (IsGradientAvailableForSrcNodeOutput b i = true ↔
          arg.name ∈ b.gradient_inputs)) := by
  intro b i
  refine ⟨?_, ?_, ?_, ?_⟩
  · intro h
    simp [IsGradientRequiredForSrcNodeInput, List.getElem?_eq_none h]
  · intro arg harg
    simp [IsGradientRequiredForSrcNodeInput, harg]
  · intro h
    simp [IsGradientAvailableForSrcNodeOutput, List.getElem?_eq_none h]
  · intro arg harg
    simp [IsGradientAvailableForSrcNodeOutput, harg]

/-- Witness for C7: out-of-range index 5 yields false, in-range index 0
tests membership. -/
theorem claim_C7_witness :
    sampleBuilderNoAlias.node.input_defs.length ≤ 5 ∧
    IsGradientRequiredForSrcNodeInput sampleBuilderNoAlias 5 = false ∧
    sampleBuilderNoAlias.node.input_defs[0]? = some ⟨"x", some "T"⟩ ∧
    IsGradientRequiredForSrcNodeInput sampleBuilderNoAlias 0 = true :=
  ⟨by decide,
    (claim_C7_membership_not_fatal sampleBuilderNoAlias 5).1 (by decide),
    rfl,
    ((claim_C7_membership_not_fatal sampleBuilderNoAlias 0).2.1
      ⟨"x", some "T"⟩ rfl).mpr (by decide)⟩

/-- Equal operands produce no reduce axes at any position of the walk. -/
theorem cbbaGo_refl (dims : List Dimension) :
    ∀ r, r ≤ dims.length → cbbaGo dims dims dims.length r = some ([], []) := by
  intro r
  induction r with
  | zero => intro _; rfl
  | succ n ih =>
    intro h
    have hidx : dims.length - (n + 1) < dims.length := by omega
    have hdim : dimAt dims dims.length (dims.length - (n + 1)) =
        some dims[dims.length - (n + 1)] := by
      simp [dimAt, Nat.sub_self, List.getElem?_eq_getElem hidx]
    have hax : axisDecision (dimAt dims dims.length (dims.length - (n + 1)))
        (dimAt dims dims.length (dims.length - (n + 1))) = some (false, false) := by
      rw [hdim]
      cases dims[dims.length - (n + 1)] <;> simp [axisDecision]
    rw [cbbaGo, hax, ih (by omega)]
    simp

/-- C4: elementwise-equal, equal-rank dimension lists yield empty reduce-axis
lists, and `HandleBroadcasting` with empty reduce-axes appends zero nodes. -/
theorem claim_C4_no_broadcast_idempotence :
    ∀ (A_dims B_dims : List Dimension), A_dims = B_dims →
      ComputeBroadcastBackwardAxes A_dims B_dims = some ([], []) ∧
      ∀ (input_grad target output_grad : ArgDef) (output : List NodeDef),
        HandleBroadcasting input_grad target output_grad [] output = output := by
  intro A_dims B_dims hAB
  subst hAB
  constructor
  · unfold ComputeBroadcastBackwardAxes
    simp only [max_self]
    exact cbbaGo_refl A_dims A_dims.length le_rfl
  · intro input_grad target output_grad output
    rfl

/-- Witness for C4 at the concrete shape [3, "n"]. -/
theorem claim_C4_witness :
    ([Dimension.dimValue 3, Dimension.dimParam "n"] =
      [Dimension.dimValue 3, Dimension.dimParam "n"]) ∧
    ComputeBroadcastBackwardAxes
      [Dimension.dimValue 3, Dimension.dimParam "n"]
      [Dimension.dimValue 3, Dimension.dimParam "n"] = some ([], []) :=
  ⟨rfl, (claim_C4_no_broadcast_idempotence
    [Dimension.dimValue 3, Dimension.dimParam "n"]
    [Dimension.dimValue 3, Dimension.dimParam "n"] rfl).1⟩

/-- Behaviour of the common accessor body on an in-range index under a
non-null graph. -/
theorem accessorAux_spec (defs : List NodeArg) (g : Graph) (st : List String)
    (i : Nat) (rec : Bool) (arg : NodeArg) (harg : defs[i]? = some arg) :
    (∀ al, g.getNodeArg (RecomputeName arg.name) = some al →
      accessorAux defs (some g) st i rec = some (⟨al.name, al.type⟩, st)) ∧
    (g.getNodeArg (RecomputeName arg.name) = none →
      accessorAux defs (some g) st i rec =
        some (⟨arg.name, arg.type⟩,
          if rec then RecordStashedTensor st arg.name else st)) := by
  constructor
  · intro al hal
    simp [accessorAux, harg, hal]
  · intro hal
    cases rec <;> simp [accessorAux, harg, hal]

/-- Any successful accessor call grows the stashed set at most by one
inserted name, removes nothing, and a repeated identical call is a no-op
on the set. -/
theorem accessorAux_insert_only (defs : List NodeArg) (graph : Option Graph)
    (st : List String) (i : Nat) (rec : Bool) (a : ArgDef) (st2 : List String)
    (h : accessorAux defs graph st i rec = some (a, st2)) :
    (∀ y ∈ st, y ∈ st2) ∧
    (st2 = st ∨ ∃ m, st2 = RecordStashedTensor st m) ∧
    accessorAux defs graph st2 i rec = some (a, st2) := by
  rcases harg : defs[i]? with _ | arg
  · simp [accessorAux, harg] at h
  rcases hgr : graph with _ | g
  · subst hgr; simp [accessorAux, harg] at h
  subst hgr
  rcases hal : g.getNodeArg (RecomputeName arg.name) with _ | al
  · cases rec
    · simp only [accessorAux, harg, hal, Bool.false_eq_true, if_false,
        Option.some.injEq, Prod.mk.injEq] at h
      obtain ⟨ha, hst⟩ := h
      subst hst
      exact ⟨fun y hy => hy, Or.inl rfl, by simp [accessorAux, harg, hal, ha]⟩
    · simp only [accessorAux, harg, hal, if_true,
        Option.some.injEq, Prod.mk.injEq] at h
      obtain ⟨ha, hst⟩ := h
      subst hst
      refine ⟨fun y hy => mem_RecordStashedTensor_of_mem _ hy,
        Or.inr ⟨arg.name, rfl⟩, ?_⟩
      simp [accessorAux, harg, hal, ha, RecordStashedTensor_idem]
  · simp only [accessorAux, harg, hal, Option.some.injEq, Prod.mk.injEq] at h
    obtain ⟨ha, hst⟩ := h
    subst hst
    exact ⟨fun y hy => hy, Or.inl rfl, by simp [accessorAux, harg, hal, ha]⟩

/-- C1: in-range accessor calls redirect to a recomputed alias when one
exists (leaving the stashed set untouched), and otherwise return the
original forward argument, stashing its name exactly when
`record_stashing` is true. -/
theorem claim_C1_recompute_redirection :
    ∀ (b : GradientBuilder) (g : Graph) (st : List String) (i : Nat)
      (rec : Bool), b.graph = some g →
      (∀ arg, b.node.input_defs[i]? = some arg →
        (∀ al, g.getNodeArg (RecomputeName arg.name) = some al →
          I b st i rec = some (⟨al.name, al.type⟩, st)) ∧
        (g.getNodeArg (RecomputeName arg.name) = none →
          I b st i rec = some (⟨arg.name, arg.type⟩,
            if rec then RecordStashedTensor st arg.name else st))) ∧
      (∀ arg, b.node.output_defs[i]? = some arg →
        (∀ al, g.getNodeArg (RecomputeName arg.name) = some al →
          O b st i rec = some (⟨al.name, al.type⟩, st)) ∧
        (g.getNodeArg (RecomputeName arg.name) = none →
          O b st i rec = some (⟨arg.name, arg.type⟩,
            if rec then RecordStashedTensor st arg.name else st))) := by
  intro b g st i rec hg
  constructor
  · intro arg harg
    have := accessorAux_spec b.node.input_defs g st i rec arg harg
    rw [show I b st i rec = accessorAux b.node.input_defs b.graph st i rec from rfl, hg]
    exact this
  · intro arg harg
    have := accessorAux_spec b.node.output_defs g st i rec arg harg
    rw [show O b st i rec = accessorAux b.node.output_defs b.graph st i rec from rfl, hg]
    exact this

/-- Witness for C1: with an alias present for input "x" the alias is
returned and nothing is stashed; without one, output "z" is stashed. -/
theorem claim_C1_witness :
    sampleBuilderAlias.graph = some sampleGraphAlias ∧
    sampleBuilderAlias.node.input_defs[0]? = some ⟨"x", some "T"⟩ ∧
    sampleGraphAlias.getNodeArg (RecomputeName "x") =
      some ⟨"x_recompute", some "T"⟩ ∧
    I sampleBuilderAlias [] 0 true = some (⟨"x_recompute", some "T"⟩, []) ∧
    sampleBuilderNoAlias.graph = some sampleGraphNoAlias ∧
    sampleBuilderNoAlias.node.output_defs[0]? = some ⟨"z", some "T"⟩ ∧
    sampleGraphNoAlias.getNodeArg (RecomputeName "z") = none ∧
    O sampleBuilderNoAlias [] 0 true = some (⟨"z", some "T"⟩, ["z"]) :=
  ⟨rfl, rfl, rfl,
    ((claim_C1_recompute_redirection sampleBuilderAlias sampleGraphAlias
      [] 0 true rfl).1 ⟨"x", some "T"⟩ rfl).1 ⟨"x_recompute", some "T"⟩ rfl,
    rfl, rfl, rfl,
    ((claim_C1_recompute_redirection sampleBuilderNoAlias sampleGraphNoAlias
      [] 0 true rfl).2 ⟨"z", some "T"⟩ rfl).2 rfl⟩

/-- C6: the stashed-tensor set is insert-only under every builder
operation, insertion has set semantics (idempotent, membership-observable),
and repeated accessor calls leave the set as if the name were inserted at
most once. -/
theorem claim_C6_stash_insert_only :
    ∀ (st : List String) (n x : String),
      (x ∈ st → x ∈ RecordStashedTensor st n) ∧
      (x ∈ RecordStashedTensor st n ↔ x = n ∨ x ∈ st) ∧
      RecordStashedTensor (RecordStashedTensor st n) n =
        RecordStashedTensor st n ∧
      (∀ (b : GradientBuilder) (i : Nat) (rec : Bool) (a : ArgDef)
          (st2 : List String),
        (I b st i rec = some (a, st2) →
          (∀ y ∈ st, y ∈ st2) ∧
          (st2 = st ∨ ∃ m, st2 = RecordStashedTensor st m) ∧
          I b st2 i rec = some (a, st2)) ∧
        (O b st i rec = some (a, st2) →
          (∀ y ∈ st, y ∈ st2) ∧
          (st2 = st ∨ ∃ m, st2 = RecordStashedTensor st m) ∧
          O b st2 i rec = some (a, st2))) := by
  intro st n x
  refine ⟨mem_RecordStashedTensor_of_mem n,
    mem_RecordStashedTensor_iff st n x,
    RecordStashedTensor_idem st n, ?_⟩
  intro b i rec a st2
  exact ⟨fun h => accessorAux_insert_only _ _ _ _ _ _ _ h,
    fun h => accessorAux_insert_only _ _ _ _ _ _ _ h⟩

/-- Witness for C6: stashing "z" twice through `O` inserts it once. -/
theorem claim_C6_witness :
    O sampleBuilderNoAlias [] 0 true = some (⟨"z", some "T"⟩, ["z"]) ∧
    O sampleBuilderNoAlias ["z"] 0 true = some (⟨"z", some "T"⟩, ["z"]) :=
  ⟨rfl,
    (((claim_C6_stash_insert_only [] "z" "z").2.2.2 sampleBuilderNoAlias 0 true
      ⟨"z", some "T"⟩ ["z"]).2 rfl).2.2⟩

/-- Every call of the dispatching `ConstantScalarNode` overload succeeds and
produces a constant carrying the given value in some encoding, with dims
`[1]`. -/
theorem constantScalarNode_shape (value : Rat) (arg_name : String)
    (elem_type : Int) :
    ∃ s, ConstantScalarNode value arg_name elem_type =
      some (mkConstantNodeDef arg_name ⟨s, [1]⟩) ∧ rawValue s = value := by
  unfold ConstantScalarNode
  split_ifs <;> exact ⟨_, rfl, rfl⟩

/-- C3: the encoding branch of `ConstantScalarNode(value, arg_name,
elem_type)` is selected only by the element-type tag — FLOAT16, BFLOAT16 and
the four 8-bit float tags each get their own encoding, and every other tag
falls back to 32-bit float encoding without any error. -/
theorem claim_C3_elem_type_dispatch :
    ∀ (value : Rat) (arg_name : String) (elem_type : Int),
      (elem_type = TensorProto_DataType_FLOAT16 →
        ConstantScalarNode value arg_name elem_type =
          some (mkConstantNodeDef arg_name ⟨.f16 value, [1]⟩)) ∧
      (elem_type = TensorProto_DataType_BFLOAT16 →
        ConstantScalarNode value arg_name elem_type =
          some (mkConstantNodeDef arg_name ⟨.bf16 value, [1]⟩)) ∧
      (elem_type = TensorProto_DataType_FLOAT8E4M3FN →
        ConstantScalarNode value arg_name elem_type =
          some (mkConstantNodeDef arg_name ⟨.f8e4m3fn value, [1]⟩)) ∧
      (elem_type = TensorProto_DataType_FLOAT8E4M3FNUZ →
        ConstantScalarNode value arg_name elem_type =
          some (mkConstantNodeDef arg_name ⟨.f8e4m3fnuz value, [1]⟩)) ∧
      (elem_type = TensorProto_DataType_FLOAT8E5M2 →
        ConstantScalarNode value arg_name elem_type =
          some (mkConstantNodeDef arg_name ⟨.f8e5m2 value, [1]⟩)) ∧
      (elem_type = TensorProto_DataType_FLOAT8E5M2FNUZ →
        ConstantScalarNode value arg_name elem_type =
          some (mkConstantNodeDef arg_name ⟨.f8e5m2fnuz value, [1]⟩)) ∧
      (elem_type ≠ TensorProto_DataType_FLOAT16 →
        elem_type ≠ TensorProto_DataType_BFLOAT16 →
        elem_type ≠ TensorProto_DataType_FLOAT8E4M3FN →
        elem_type ≠ TensorProto_DataType_FLOAT8E4M3FNUZ →
        elem_type ≠ TensorProto_DataType_FLOAT8E5M2 →
        elem_type ≠ TensorProto_DataType_FLOAT8E5M2FNUZ →
        ConstantScalarNode value arg_name elem_type =
          some (mkConstantNodeDef arg_name ⟨.f32 value, [1]⟩)) := by
  intro value arg_name elem_type
  refine ⟨?_, ?_, ?_, ?_, ?_, ?_, ?_⟩
  · intro h; subst h; rfl
  · intro h; subst h; rfl
  · intro h; subst h; rfl
  · intro h; subst h; rfl
  · intro h; subst h; rfl
  · intro h; subst h; rfl
  · intro h1 h2 h3 h4 h5 h6
    simp only [ConstantScalarNode, if_neg h1, if_neg h2, if_neg h3, if_neg h4,
      if_neg h5, if_neg h6]
    rfl

/-- Witness for C3: tag 16 (BFLOAT16) takes the bfloat16 branch, and the
unrecognized tag 7 falls back to 32-bit float. -/
theorem claim_C3_witness :
    ((16 : Int) = TensorProto_DataType_BFLOAT16 ∧
      ConstantScalarNode 1 "c" 16 =
        some (mkConstantNodeDef "c" ⟨.bf16 1, [1]⟩)) ∧
    ((7 : Int) ≠ TensorProto_DataType_FLOAT16 ∧
      ConstantScalarNode 1 "c" 7 =
        some (mkConstantNodeDef "c" ⟨.f32 1, [1]⟩)) :=
  ⟨⟨rfl, (claim_C3_elem_type_dispatch 1 "c" 16).2.1 rfl⟩,
    ⟨by decide,
      (claim_C3_elem_type_dispatch 1 "c" 7).2.2.2.2.2.2 (by decide) (by decide)
        (by decide) (by decide) (by decide) (by decide)⟩⟩

/-- C9: `ScalarTensorProto(value, shape)` fails fatally unless the shape is
empty or exactly `[1]`; consequently every constant produced through the
element-type-dispatching `ConstantScalarNode` overload has shape `[1]`. -/
theorem claim_C9_scalar_shape_enforce :
    ∀ (value : EncodedScalar) (shape : List Int),
      ((ScalarTensorProto value shape).isSome ↔ shape = [] ∨ shape = [1]) ∧
      (∀ (x : Rat) (a : String) (t : Int),
        ∃ s, ConstantScalarNode x a t = some (mkConstantNodeDef a ⟨s, [1]⟩)) := by
  intro value shape
  constructor
  · rcases shape with _ | ⟨d, _ | ⟨e, tl⟩⟩
    · simp [ScalarTensorProto]
    · by_cases hd : d = 1
      · subst hd; simp [ScalarTensorProto]
      · simp [ScalarTensorProto, hd]
    · simp [ScalarTensorProto]
  · intro x a t
    obtain ⟨s, hs, _⟩ := constantScalarNode_shape x a t
    exact ⟨s, hs⟩

theorem append_left_cancel_string {p x y : String} (h : p ++ x = p ++ y) :
    x = y := by
  have hd := congrArg String.data h
  simp only [String.data_append] at hd
  exact String.ext (List.append_cancel_left hd)

/-- The output-argument names of any dispatched constant node are exactly
the requested argument name. -/
theorem constOutNames_constantScalarNode (value : Rat) (arg_name : String)
    (elem_type : Int) :
    constOutNames (ConstantScalarNode value arg_name elem_type) =
      some [arg_name] := by
  obtain ⟨s, hs, _⟩ := constantScalarNode_shape value arg_name elem_type
  rw [hs]
  rfl

/-- C8: the Zero/Half/One convenience constants carry fixed values 0, 0.5, 1
under names derived from the element type, so repeated calls for the same
type are name-idempotent while distinct types or distinct constructors never
collide. -/
theorem claim_C8_constant_name_scheme :
    ∀ (t t2 : Int),
      (∃ s, ZeroConstantNode t = some (mkConstantNodeDef
        ("ZeroConstant_Type" ++ intToString t) ⟨s, [1]⟩) ∧ rawValue s = 0) ∧
      (∃ s, HalfConstantNode t = some (mkConstantNodeDef
        ("HalfConstant_Type" ++ intToString t) ⟨s, [1]⟩) ∧ rawValue s = 1 / 2) ∧
      (∃ s, OneConstantNode t = some (mkConstantNodeDef
        ("OneConstant_Type" ++ intToString t) ⟨s, [1]⟩) ∧ rawValue s = 1) ∧
      (t ≠ t2 →
        constOutNames (ZeroConstantNode t) ≠ constOutNames (ZeroConstantNode t2) ∧
        constOutNames (HalfConstantNode t) ≠ constOutNames (HalfConstantNode t2) ∧
        constOutNames (OneConstantNode t) ≠ constOutNames (OneConstantNode t2)) ∧
      constOutNames (ZeroConstantNode t) ≠ constOutNames (HalfConstantNode t2) ∧
      constOutNames (ZeroConstantNode t) ≠ constOutNames (OneConstantNode t2) ∧
      constOutNames (HalfConstantNode t) ≠ constOutNames (OneConstantNode t2) := by
  intro t t2
  have hzHead : ∀ x : String,
      (("ZeroConstant_Type" ++ x) : String).data.head? = some 'Z' := fun _ => rfl
  have hhHead : ∀ x : String,
      (("HalfConstant_Type" ++ x) : String).data.head? = some 'H' := fun _ => rfl
  have hoHead : ∀ x : String,
      (("OneConstant_Type" ++ x) : String).data.head? = some 'O' := fun _ => rfl
  refine ⟨constantScalarNode_shape 0 _ t, constantScalarNode_shape (1 / 2) _ t,
    constantScalarNode_shape 1 _ t, ?_, ?_, ?_, ?_⟩
  · intro hne
    refine ⟨?_, ?_, ?_⟩ <;>
    · intro h
      simp only [ZeroConstantNode, HalfConstantNode, OneConstantNode] at h
      rw [constOutNames_constantScalarNode, constOutNames_constantScalarNode] at h
      have hn := List.head_eq_of_cons_eq (Option.some.inj h)
      exact hne (intToString_inj (append_left_cancel_string hn))
  · intro h
    unfold ZeroConstantNode HalfConstantNode at h
    rw [constOutNames_constantScalarNode, constOutNames_constantScalarNode] at h
    have hn := List.head_eq_of_cons_eq (Option.some.inj h)
    have hc : ("ZeroConstant_Type" ++ intToString t).data.head? =
        ("HalfConstant_Type" ++ intToString t2).data.head? := by rw [hn]
    rw [hzHead, hhHead] at hc
    exact absurd hc (by decide)
  · intro h
    unfold ZeroConstantNode OneConstantNode at h
    rw [constOutNames_constantScalarNode, constOutNames_constantScalarNode] at h
    have hn := List.head_eq_of_cons_eq (Option.some.inj h)
    have hc : ("ZeroConstant_Type" ++ intToString t).data.head? =
        ("OneConstant_Type" ++ intToString t2).data.head? := by rw [hn]
    rw [hzHead, hoHead] at hc
    exact absurd hc (by decide)
  · intro h
    unfold HalfConstantNode OneConstantNode at h
    rw [constOutNames_constantScalarNode, constOutNames_constantScalarNode] at h
    have hn := List.head_eq_of_cons_eq (Option.some.inj h)
    have hc : ("HalfConstant_Type" ++ intToString t).data.head? =
        ("OneConstant_Type" ++ intToString t2).data.head? := by rw [hn]
    rw [hhHead, hoHead] at hc
    exact absurd hc (by decide)

/-- Witness for C8: tags 1 (FLOAT) and 10 (FLOAT16) give distinct
ZeroConstant names. -/
theorem claim_C8_witness :
    ((1 : Int) ≠ (10 : Int)) ∧
    constOutNames (ZeroConstantNode 1) ≠ constOutNames (ZeroConstantNode 10) :=
  ⟨by decide, ((claim_C8_constant_name_scheme 1 10).2.2.2.1 (by decide)).1⟩

/-! ### Name finalization (claim C2) -/

theorem finalizeNames_length (p : String) :
    ∀ (k : Nat) (l : List NodeDef), (finalizeNames p k l).length = l.length := by
  intro k l
  induction l generalizing k with
  | nil => rfl
  | cons nd rest ih => simp [finalizeNames, ih]

theorem finalizeNames_getElem? (p : String) :
    ∀ (l : List NodeDef) (k i : Nat),
      (finalizeNames p k l)[i]? = l[i]?.map fun nd =>
        if nd.name = "" then
          { nd with name := p ++ (nd.op_type ++ "_" ++ natToString (k + i)) }
        else nd := by
  intro l
  induction l with
  | nil => intro k i; simp [finalizeNames]
  | cons nd rest ih =>
    intro k i
    cases i with
    | zero => simp [finalizeNames]
    | succ m =>
      have hkm : k + 1 + m = k + (m + 1) := by omega
      simp only [finalizeNames, List.getElem?_cons_succ]
      rw [ih (k + 1) m, hkm]

/-- Two auto-assigned names (same builder, distinct loop indices) never
coincide: the decimal index after the final underscore is recoverable. -/
theorem autoName_inj (p o1 o2 : String) {i j : Nat}
    (h : p ++ (o1 ++ "_" ++ natToString i) = p ++ (o2 ++ "_" ++ natToString j)) :
    i = j := by
  have hd := congrArg String.data h
  simp only [String.data_append] at hd
  have h2 : (p.data ++ o1.data) ++ '_' :: toDecimalAux i [] =
      (p.data ++ o2.data) ++ '_' :: toDecimalAux j [] := by
    simpa [List.append_assoc, natToString] using hd
  exact toDecimalAux_inj (append_underscore_inj _ _ _ _
    (toDecimalAux_no_underscore i) (toDecimalAux_no_underscore j) h2)

/-- An auto-assigned name contains an underscore, so it is never empty. -/
theorem autoName_ne_empty (p o : String) (i : Nat) :
    p ++ (o ++ "_" ++ natToString i) ≠ "" := by
  intro h
  have hd := congrArg String.data h
  simp only [String.data_append] at hd
  simp at hd

/-- C2 (amended): `GetGradientDefs()` finalizes names — empty-named nodes
from `GetGradientDefsImpl()` get the builder prefix plus
`<op_type>_<index>`, non-empty names are returned unchanged, every returned
name is non-empty, and — provided the concrete builder's own non-empty
names neither repeat nor collide with an auto-assigned name — all returned
names are pairwise distinct. -/
theorem claim_C2_name_finalization :
    ∀ (b : GradientBuilder) (st st2 : List String) (defs : List NodeDef),
      b.getGradientDefsImpl st = some (defs, st2) →
      ∃ res, GetGradientDefs b st = some (res, st2) ∧
        res.length = defs.length ∧
        (∀ (i : Nat) (nd : NodeDef), defs[i]? = some nd →
          res[i]? = some (if nd.name = "" then
            { nd with name := b.unique_node_pfx ++
              (nd.op_type ++ "_" ++ natToString i) }
          else nd)) ∧
        (∀ nd ∈ res, nd.name ≠ "") ∧
        ((∀ (i j : Nat) (nd1 nd2 : NodeDef), defs[i]? = some nd1 →
            defs[j]? = some nd2 →
            nd1.name ≠ "" → nd2.name ≠ "" → i ≠ j → nd1.name ≠ nd2.name) →
          (∀ (i j : Nat) (nd1 nd2 : NodeDef), defs[i]? = some nd1 →
            defs[j]? = some nd2 →
            nd1.name ≠ "" → nd2.name = "" →
            nd1.name ≠ b.unique_node_pfx ++
              (nd2.op_type ++ "_" ++ natToString j)) →
          (res.map NodeDef.name).Nodup) := by
  intro b st st2 defs himpl
  refine ⟨finalizeNames b.unique_node_pfx 0 defs, ?_,
    finalizeNames_length _ _ _, ?_, ?_, ?_⟩
  · simp [GetGradientDefs, himpl]
  · intro i nd hnd
    rw [finalizeNames_getElem?, hnd]
    simp
  · intro nd hmem
    obtain ⟨i, hi⟩ := List.mem_iff_getElem?.mp hmem
    rw [finalizeNames_getElem?] at hi
    rcases hdefs : defs[i]? with _ | nd0
    · rw [hdefs] at hi; simp at hi
    · rw [hdefs] at hi
      simp only [Option.map_some', Option.some.injEq] at hi
      subst hi
      by_cases hname : nd0.name = ""
      · rw [if_pos hname]
        exact autoName_ne_empty _ _ _
      · rwa [if_neg hname]
  · intro Hne Hcross
    rw [List.nodup_iff_getElem?_ne_getElem?]
    intro i j hij hj heq
    have hjlen : j < defs.length := by
      rwa [List.length_map, finalizeNames_length] at hj
    have hilen : i < defs.length := lt_trans hij hjlen
    obtain ⟨nd1, h1⟩ : ∃ nd, defs[i]? = some nd :=
      ⟨_, List.getElem?_eq_getElem hilen⟩
    obtain ⟨nd2, h2⟩ : ∃ nd, defs[j]? = some nd :=
      ⟨_, List.getElem?_eq_getElem hjlen⟩
    rw [List.getElem?_map, List.getElem?_map, finalizeNames_getElem?,
      finalizeNames_getElem?, h1, h2] at heq
    simp only [Option.map_some', Option.some.injEq, Nat.zero_add] at heq
    by_cases e1 : nd1.name = "" <;> by_cases e2 : nd2.name = ""
    · rw [if_pos e1, if_pos e2] at heq
      simp only at heq
      exact absurd (autoName_inj _ _ _ heq) (by omega)
    · rw [if_pos e1, if_neg e2] at heq
      simp only at heq
      exact Hcross j i nd2 nd1 h2 h1 e2 e1 heq.symm
    · rw [if_neg e1, if_pos e2] at heq
      simp only at heq
      exact Hcross i j nd1 nd2 h1 h2 e1 e2 heq
    · rw [if_neg e1, if_neg e2] at heq
      exact Hne i j nd1 nd2 h1 h2 e1 e2 (by omega) heq

def cexNodeA : NodeDef :=
  { op_type := "Add", name := "x", inputs := [], outputs := [], attributes := [] }

def cexNodeB : NodeDef :=
  { op_type := "Mul", name := "x", inputs := [], outputs := [], attributes := [] }

/-- A concrete builder whose `GetGradientDefsImpl` emits two distinct nodes
carrying the same non-empty name. -/
def cexBuilderC2 : GradientBuilder :=
  { graph := none,
    node := { name := "fwd", op_type := "Op", input_defs := [], output_defs := [] },
    gradient_inputs := [], gradient_outputs := [],
    unique_node_pfx := "fwd_Grad/",
    getGradientDefsImpl := fun st => some ([cexNodeA, cexNodeB], st) }

/-- Counterexample to C2 as stated: when the concrete builder returns two
nodes with the same non-empty name, `GetGradientDefs()` returns them
unchanged, so the returned GradientDef carries duplicate names. -/
theorem claim_C2_counterexample :
    (GetGradientDefs cexBuilderC2 []).map (fun p => p.1.map NodeDef.name) =
      some ["x", "x"] ∧
    ¬ (["x", "x"] : List String).Nodup :=
  ⟨rfl, by decide⟩

def wNodeC2 : NodeDef :=
  { op_type := "Add", name := "", inputs := [], outputs := [], attributes := [] }

/-- A concrete builder whose `GetGradientDefsImpl` emits one anonymous
node. -/
def wBuilderC2 : GradientBuilder :=
  { graph := none,
    node := { name := "fwd", op_type := "Op", input_defs := [], output_defs := [] },
    gradient_inputs := [], gradient_outputs := [],
    unique_node_pfx := "fwd_Grad/",
    getGradientDefsImpl := fun st => some ([wNodeC2], st) }

/-- Witness for C2 at a concrete builder emitting one anonymous node. -/
theorem claim_C2_witness :
    wBuilderC2.getGradientDefsImpl [] = some ([wNodeC2], []) ∧
    ∃ res, GetGradientDefs wBuilderC2 [] = some (res, []) ∧
      res.length = 1 ∧ ∀ nd ∈ res, nd.name ≠ "" := by
  refine ⟨rfl, ?_⟩
  obtain ⟨res, h1, h2, _, h4, _⟩ :=
    claim_C2_name_finalization wBuilderC2 [] [] [wNodeC2] rfl
  exact ⟨res, h1, by simpa using h2, h4⟩

end OnnxGradBuilder
